import Mathlib

/-!
Shallow embedding of the QuCumber gradient-verification utilities
(`tests/grads_utils.py`) and supporting definitions for the weight-plotting
script (`symmetries.py`).

Tensors of doubles are modelled as lists (or index functions) over an
arbitrary linear ordered field `K`; the intended reading instantiates `K`
with the real numbers.  The elementwise tensor logarithm `.log()` is an
abstract operation `log : K → K` carried by the model structure, since the
glue code under verification never relies on any property of the logarithm
itself.  The external NQS library (`qucumber`) is modelled as a structure
of abstract functions that receive the model's current parameter tensor
explicitly, so that the in-place parameter mutations performed by the
finite-difference loops become explicit state passing.
-/

namespace QC

variable {K : Type} [LinearOrderedField K]

/-- Complex numbers as stored by qucumber's `cplx` helper module: a pair of
real (double) components. -/
@[ext]
structure Cplx (K : Type) where
  re : K
  im : K

instance : Add (Cplx K) := ⟨fun a b => ⟨a.re + b.re, a.im + b.im⟩⟩

instance [DecidableEq K] : DecidableEq (Cplx K) := fun a b => by
  cases a; cases b
  exact decidable_of_iff _ (Iff.of_eq (Cplx.mk.injEq _ _ _ _)).symm

namespace Cplx

/-- Embedding of `cplx.scalar_mult`: the product of two complex scalars. -/
def scalar_mult (a b : Cplx K) : Cplx K :=
  ⟨a.re * b.re - a.im * b.im, a.re * b.im + a.im * b.re⟩

/-- Embedding of `cplx.norm_sqr`: squared modulus of a complex scalar. -/
def norm_sqr (a : Cplx K) : K :=
  a.re * a.re + a.im * a.im

theorem add_def (a b : Cplx K) : a + b = ⟨a.re + b.re, a.im + b.im⟩ := rfl

end Cplx

/-- Embedding of the in-place update `param[i] += d` on a flat parameter
tensor. -/
def bumpAt (params : List K) (i : ℕ) (d : K) : List K :=
  params.set i (params.getD i 0 + d)

/-- Embedding of the in-place update `param[i] -= d` on a flat parameter
tensor. -/
def dipAt (params : List K) (i : ℕ) (d : K) : List K :=
  params.set i (params.getD i 0 - d)

/-- Embedding of `int("".join(str(b) for b in bitstate), 2)` for a list of
binary digits: the base-2 number whose most significant digit comes
first. -/
def bitsToIndex (bs : List ℕ) : ℕ :=
  bs.foldl (fun a b => 2 * a + b) 0

/-- The external surface used by `PosGradsUtils` (positive wavefunction): the
NQS library operations plus the tensor logarithm.  Every library operation
receives the model's current parameter tensor as its first argument,
reflecting that it reads the (mutable) parameters of `nn_state`. -/
structure PosNNState (K : Type) where
  log : K → K
  probability : List K → List K → K → K
  compute_normalization : List K → List (List K) → K
  compute_batch_gradients : List K → ℕ → List (List K) → List (List K) → List (List K)

namespace PosGradsUtils

/-- Embedding of `PosGradsUtils.compute_numerical_kl`: accumulates
`target_psi[i,0]^2 * log(target_psi[i,0]^2)
 - target_psi[i,0]^2 * log(probability(vis[i], Z))` over the visible-state
enumeration.  `target_psi` maps a row index to the row's two columns. -/
def compute_numerical_kl (nn : PosNNState K) (params : List K)
    (target_psi : ℕ → K × K) (vis : List (List K)) (Z : K) : K :=
  (List.range vis.length).foldl
    (fun KL i =>
      KL + (target_psi i).1 ^ 2 * nn.log ((target_psi i).1 ^ 2)
        - (target_psi i).1 ^ 2 * nn.log (nn.probability params (vis.getD i []) Z))
    0

/-- Embedding of `PosGradsUtils.compute_numerical_NLL`: accumulates
`-log(probability(data[i], Z)) / batch_size` over the data set. -/
def compute_numerical_NLL (nn : PosNNState K) (params : List K)
    (data : List (List K)) (Z : K) : K :=
  (List.range data.length).foldl
    (fun NLL i =>
      NLL - nn.log (nn.probability params (data.getD i []) Z) / (data.length : K))
    0

/-- Embedding of `PosGradsUtils.algorithmic_gradNLL`: a direct delegation to
`nn_state.compute_batch_gradients(k, data, data)`. -/
def algorithmic_gradNLL (nn : PosNNState K) (params : List K)
    (data : List (List K)) (k : ℕ) : List (List K) :=
  nn.compute_batch_gradients params k data data

/-- Embedding of `PosGradsUtils.numeric_gradKL`.  The loop's in-place
mutations of `param` are threaded explicitly; the result pairs the stacked
finite-difference entries with the parameter tensor as it stands after the
loop. -/
def numeric_gradKL (nn : PosNNState K) (target_psi : ℕ → K × K)
    (vis : List (List K)) (eps : K) (params : List K) : List K × List K :=
  (List.range params.length).foldl
    (fun acc i =>
      let p1 := bumpAt acc.2 i eps
      let Zp := nn.compute_normalization p1 vis
      let KLp := compute_numerical_kl nn p1 target_psi vis Zp
      let p2 := dipAt p1 i (2 * eps)
      let Zm := nn.compute_normalization p2 vis
      let KLm := compute_numerical_kl nn p2 target_psi vis Zm
      let p3 := bumpAt p2 i eps
      (acc.1 ++ [(KLp - KLm) / (2 * eps)], p3))
    ([], params)

/-- Embedding of `PosGradsUtils.numeric_gradNLL`, analogous to
`numeric_gradKL` with the NLL objective. -/
def numeric_gradNLL (nn : PosNNState K) (data : List (List K))
    (vis : List (List K)) (eps : K) (params : List K) : List K × List K :=
  (List.range params.length).foldl
    (fun acc i =>
      let p1 := bumpAt acc.2 i eps
      let Zp := nn.compute_normalization p1 vis
      let NLLp := compute_numerical_NLL nn p1 data Zp
      let p2 := dipAt p1 i (2 * eps)
      let Zm := nn.compute_normalization p2 vis
      let NLLm := compute_numerical_NLL nn p2 data Zm
      let p3 := bumpAt p2 i eps
      (acc.1 ++ [(NLLp - NLLm) / (2 * eps)], p3))
    ([], params)

end PosGradsUtils

/-- The external surface used by `ComplexGradsUtils` (complex
wavefunction).  Basis strings are modelled as lists of characters.
`generate_hilbert_space m xp c` is entry `[xp][c]` of the library's
enumeration `generate_hilbert_space(m)` of an `m`-site sub-space. -/
structure CplxNNState (K : Type) where
  num_visible : ℕ
  log : K → K
  psi : List K → List K → Cplx K
  probability : List K → List K → K → K
  compute_normalization : List K → List (List K) → K
  generate_hilbert_space : ℕ → ℕ → ℕ → K
  compute_batch_gradients :
    List K → ℕ → List (List K) → List (List K) → List (List Char) → List (List K)

namespace ComplexGradsUtils

/-- The contiguous slice `psi_data[b*D:(b+1)*D]` used by
`load_target_psi`. -/
def blockSlice (psi_data : List (K × K)) (D b : ℕ) : List (K × K) :=
  (psi_data.drop (b * D)).take D

/-- Embedding of `ComplexGradsUtils.load_target_psi`: builds a dictionary
mapping each basis string to a pair of rows, row `0` holding the first
column (real parts) and row `1` the second column (imaginary parts) of the
corresponding contiguous block of `psi_data`.  The Python `dict` is
modelled as a lookup function built by successive key updates. -/
def load_target_psi [DecidableEq K] (bases : List (List Char))
    (psi_data : List (K × K)) : List Char → Option (List K × List K) :=
  let D := psi_data.length / bases.length
  (List.range bases.length).foldl
    (fun d b =>
      Function.update d (bases.getD b [])
        (some ((blockSlice psi_data D b).map Prod.fst,
               (blockSlice psi_data D b).map Prod.snd)))
    (fun _ => none)

/-- Embedding of `ComplexGradsUtils.transform_bases`: rebuilds each basis
string, keeping every non-space character. -/
def transform_bases (bases_data : List (List Char)) : List (List Char) :=
  (List.range bases_data.length).foldl
    (fun bases i =>
      bases ++ [(bases_data.getD i []).foldl
        (fun tmp c => if c ≠ ' ' then tmp ++ [c] else tmp) []])
    []

/-- The sites `j` (in scan order) whose basis character is not `"Z"`, as
collected by the `nontrivial_sites` loop of `rotate_psi`. -/
def nontrivialSites (N : ℕ) (basis : List Char) : List ℕ :=
  (List.range N).filter (fun j => basis.getD j 'Z' ≠ 'Z')

/-- The value of the running counter `cnt` of `rotate_psi` when site `j` is
reached: the number of nontrivial sites before `j`. -/
def cntBefore (basis : List Char) (j : ℕ) : ℕ :=
  ((List.range j).filter (fun k => basis.getD k 'Z' ≠ 'Z')).length

/-- The visible-unit buffer `v` of `rotate_psi` as fully rewritten for outer
index `x` and sub-space index `xp`: nontrivial sites read from
`sub_state[xp]`, trivial sites from `vis[x]`. -/
def buildV (nn : CplxNNState K) (basis : List Char) (vis : List (List K))
    (x xp : ℕ) : List K :=
  (List.range nn.num_visible).map (fun j =>
    if basis.getD j 'Z' ≠ 'Z' then
      nn.generate_hilbert_space (nontrivialSites nn.num_visible basis).length
        xp (cntBefore basis j)
    else (vis.getD x []).getD j 0)

/-- The accumulated unitary factor `U` of `rotate_psi` for outer index `x`
and sub-space index `xp`: the product, over nontrivial sites, of the
unitary entries `unitary_dict[basis[site]][:, vis[x][site], v[site]]`,
starting from the complex scalar `1`. -/
def uFactor [FloorRing K] (nn : CplxNNState K) (basis : List Char)
    (unitary_dict : Char → ℕ → ℕ → Cplx K) (vis : List (List K))
    (x xp : ℕ) : Cplx K :=
  (nontrivialSites nn.num_visible basis).foldl
    (fun U j =>
      Cplx.scalar_mult U
        (unitary_dict (basis.getD j 'Z')
          ⌊(vis.getD x []).getD j 0⌋₊
          ⌊(buildV nn basis vis x xp).getD j 0⌋₊))
    ⟨1, 0⟩

/-- Embedding of `ComplexGradsUtils.rotate_psi`: column `x` of the returned
tensor is the sum, over the sub-space enumeration, of the accumulated
unitary factor times `psi` evaluated on the rewritten visible buffer. -/
def rotate_psi [FloorRing K] (nn : CplxNNState K) (params : List K)
    (basis : List Char) (unitary_dict : Char → ℕ → ℕ → Cplx K)
    (vis : List (List K)) : List (Cplx K) :=
  (List.range (2 ^ nn.num_visible)).map (fun x =>
    (List.range (2 ^ (nontrivialSites nn.num_visible basis).length)).foldl
      (fun Upsi xp =>
        Upsi + Cplx.scalar_mult (uFactor nn basis unitary_dict vis x xp)
          (nn.psi params (buildV nn basis vis x xp)))
      ⟨0, 0⟩)

/-- The bit list built from sample `i` of `data_samples` by the inner loop
of `compute_numerical_NLL`. -/
def sampleBits [FloorRing K] (nn : CplxNNState K)
    (data_samples : List (List K)) (i : ℕ) : List ℕ :=
  (List.range nn.num_visible).map (fun j => ⌊(data_samples.getD i []).getD j 0⌋₊)

/-- One pass of the `b_flag` update of `compute_numerical_NLL` over the
basis characters of sample `i`. -/
def flagStep (N : ℕ) (data_bases : List (List Char)) (i : ℕ) (bflag : ℕ) : ℕ :=
  (List.range N).foldl
    (fun f j => if (data_bases.getD i []).getD j 'Z' ≠ 'Z' then 1 else f)
    bflag

/-- The loop body of `ComplexGradsUtils.compute_numerical_NLL`: updates the
sticky `b_flag` from sample `i`'s basis characters, then subtracts the
sample's contribution, taken from the unrotated probability branch when the
flag is still `0` and from the rotated-psi branch otherwise. -/
def NLLbody [FloorRing K] (nn : CplxNNState K) (params : List K)
    (data_samples : List (List K)) (data_bases : List (List Char)) (Z : K)
    (unitary_dict : Char → ℕ → ℕ → Cplx K) (vis : List (List K))
    (acc : K × ℕ) (i : ℕ) : K × ℕ :=
  let bflag := flagStep nn.num_visible data_bases i acc.2
  let ind := bitsToIndex (sampleBits nn data_samples i)
  let term :=
    if bflag = 0 then
      nn.log (nn.probability params (data_samples.getD i []) Z)
    else
      nn.log (Cplx.norm_sqr
        ((rotate_psi nn params (data_bases.getD i []) unitary_dict vis).getD
          ind ⟨0, 0⟩)) - nn.log Z
  (acc.1 - term / (data_samples.length : K), bflag)

/-- Embedding of `ComplexGradsUtils.compute_numerical_NLL`: folds the loop
body `NLLbody` over the samples, starting from a zero accumulator and a
cleared `b_flag`. -/
def compute_numerical_NLL [FloorRing K] (nn : CplxNNState K) (params : List K)
    (data_samples : List (List K)) (data_bases : List (List Char)) (Z : K)
    (unitary_dict : Char → ℕ → ℕ → Cplx K) (vis : List (List K)) : K :=
  ((List.range data_samples.length).foldl
    (NLLbody nn params data_samples data_bases Z unitary_dict vis)
    ((0 : K), (0 : ℕ))).1

/-- Embedding of `ComplexGradsUtils.compute_numerical_kl`: the first loop
accumulates the computational-basis contribution from `psi_dict[bases[0]]`,
the second loop the rotated contributions from the remaining bases, with
the positive term guarded by `norm_sqr > 0`.  `psi_dict` maps a basis
string and a column index to a complex amplitude. -/
def compute_numerical_kl [FloorRing K] (nn : CplxNNState K) (params : List K)
    (psi_dict : List Char → ℕ → Cplx K) (vis : List (List K)) (Z : K)
    (unitary_dict : Char → ℕ → ℕ → Cplx K) (bases : List (List Char)) : K :=
  let KL0 :=
    (List.range vis.length).foldl
      (fun KL i =>
        KL + Cplx.norm_sqr (psi_dict (bases.getD 0 []) i) *
              nn.log (Cplx.norm_sqr (psi_dict (bases.getD 0 []) i)) /
              (bases.length : K)
           - Cplx.norm_sqr (psi_dict (bases.getD 0 []) i) *
              nn.log (nn.probability params (vis.getD i []) Z) /
              (bases.length : K))
      0
  (List.range (bases.length - 1)).foldl
    (fun KL bp =>
      let b := bp + 1
      let psi_r := rotate_psi nn params (bases.getD b []) unitary_dict vis
      (List.range vis.length).foldl
        (fun KL ii =>
          let KL1 :=
            if Cplx.norm_sqr (psi_dict (bases.getD b []) ii) > 0 then
              KL + Cplx.norm_sqr (psi_dict (bases.getD b []) ii) *
                    nn.log (Cplx.norm_sqr (psi_dict (bases.getD b []) ii)) /
                    (bases.length : K)
            else KL
          KL1 - Cplx.norm_sqr (psi_dict (bases.getD b []) ii) *
                 nn.log (Cplx.norm_sqr (psi_r.getD ii ⟨0, 0⟩)) /
                 (bases.length : K)
              + Cplx.norm_sqr (psi_dict (bases.getD b []) ii) * nn.log Z /
                 (bases.length : K))
        KL)
    KL0

/-- Embedding of `ComplexGradsUtils.algorithmic_gradNLL`: a direct
delegation to
`nn_state.compute_batch_gradients(k, data_samples, data_samples,
data_bases)`. -/
def algorithmic_gradNLL (nn : CplxNNState K) (params : List K)
    (data_samples : List (List K)) (data_bases : List (List Char))
    (k : ℕ) : List (List K) :=
  nn.compute_batch_gradients params k data_samples data_samples data_bases

/-- Embedding of `ComplexGradsUtils.numeric_gradNLL`, threading the
in-place parameter updates explicitly as in the positive case. -/
def numeric_gradNLL [FloorRing K] (nn : CplxNNState K)
    (data_samples : List (List K)) (data_bases : List (List Char))
    (unitary_dict : Char → ℕ → ℕ → Cplx K) (vis : List (List K)) (eps : K)
    (params : List K) : List K × List K :=
  (List.range params.length).foldl
    (fun acc i =>
      let p1 := bumpAt acc.2 i eps
      let Zp := nn.compute_normalization p1 vis
      let NLLp := compute_numerical_NLL nn p1 data_samples data_bases Zp
        unitary_dict vis
      let p2 := dipAt p1 i (2 * eps)
      let Zm := nn.compute_normalization p2 vis
      let NLLm := compute_numerical_NLL nn p2 data_samples data_bases Zm
        unitary_dict vis
      let p3 := bumpAt p2 i eps
      (acc.1 ++ [(NLLp - NLLm) / (2 * eps)], p3))
    ([], params)

/-- Embedding of `ComplexGradsUtils.numeric_gradKL`, threading the
in-place parameter updates explicitly as in the positive case. -/
def numeric_gradKL [FloorRing K] (nn : CplxNNState K)
    (psi_dict : List Char → ℕ → Cplx K) (vis : List (List K))
    (unitary_dict : Char → ℕ → ℕ → Cplx K) (bases : List (List Char))
    (eps : K) (params : List K) : List K × List K :=
  (List.range params.length).foldl
    (fun acc i =>
      let p1 := bumpAt acc.2 i eps
      let Zp := nn.compute_normalization p1 vis
      let KLp := compute_numerical_kl nn p1 psi_dict vis Zp unitary_dict bases
      let p2 := dipAt p1 i (2 * eps)
      let Zm := nn.compute_normalization p2 vis
      let KLm := compute_numerical_kl nn p2 psi_dict vis Zm unitary_dict bases
      let p3 := bumpAt p2 i eps
      (acc.1 ++ [(KLp - KLm) / (2 * eps)], p3))
    ([], params)

end ComplexGradsUtils

/-- The external surface used by `DensityGradsUtils` (density matrix):
`density_matrix_KL` is `training_statistics.density_matrix_KL` of the
library, taking the current parameters, the target, the bases and the
visible and auxiliary spaces. -/
structure DensityNNState (K : Type) where
  density_matrix_KL : List K → List K → List (List Char) → List (List K) →
    List (List K) → K

namespace DensityGradsUtils

/-- Embedding of `DensityGradsUtils.transform_bases`: rebuilds each basis
string, keeping every non-space character. -/
def transform_bases (bases_data : List (List Char)) : List (List Char) :=
  (List.range bases_data.length).foldl
    (fun bases i =>
      bases ++ [(bases_data.getD i []).foldl
        (fun tmp c => if c ≠ ' ' then tmp ++ [c] else tmp) []])
    []

/-- Embedding of `DensityGradsUtils.compute_numerical_KL`: a direct
delegation to `training_statistics.density_matrix_KL`. -/
def compute_numerical_KL (nn : DensityNNState K) (params : List K)
    (target : List K) (bases : List (List Char)) (v_space a_space : List (List K)) : K :=
  nn.density_matrix_KL params target bases v_space a_space

/-- Embedding of `DensityGradsUtils.numeric_gradKL`: the parameter tensor is
traversed flat (the source's `param.view(-1)`), with the in-place updates
threaded explicitly. -/
def numeric_gradKL (nn : DensityNNState K) (target : List K)
    (v_space a_space : List (List K)) (bases : List (List Char)) (eps : K)
    (params : List K) : List K × List K :=
  (List.range params.length).foldl
    (fun acc i =>
      let p1 := bumpAt acc.2 i eps
      let KLp := compute_numerical_KL nn p1 target bases v_space a_space
      let p2 := dipAt p1 i (2 * eps)
      let KLm := compute_numerical_KL nn p2 target bases v_space a_space
      let p3 := bumpAt p2 i eps
      (acc.1 ++ [(KLp - KLm) / (2 * eps)], p3))
    ([], params)

end DensityGradsUtils

/-- The basis string `basis` reads `"Z"` at every site of an `N`-site
system. -/
def AllZ (N : ℕ) (basis : List Char) : Prop :=
  ∀ j < N, basis.getD j 'Z' = 'Z'

instance (N : ℕ) (basis : List Char) : Decidable (AllZ N basis) := by
  unfold AllZ; exact Nat.decidableBallLT N _

/-- A second definition for claim C7, following the claim's words rather
than the source: the value `numeric_gradKL` would return if no call into
the gradient-check utilities modified any state observable by the external
library, i.e. if both objective evaluations of each loop iteration saw the
caller's parameter tensor unchanged. -/
def PosGradsUtils.numeric_gradKL_paramsFrozen (nn : PosNNState K)
    (target_psi : ℕ → K × K) (vis : List (List K)) (eps : K)
    (params : List K) : List K :=
  (List.range params.length).map (fun _ =>
    (PosGradsUtils.compute_numerical_kl nn params target_psi vis
        (nn.compute_normalization params vis)
     - PosGradsUtils.compute_numerical_kl nn params target_psi vis
        (nn.compute_normalization params vis)) / (2 * eps))

/-- A concrete positive-wavefunction library surface over `ℚ` with trivial
operations, used to instantiate hypothesis-bearing theorems. -/
def posNNEx : PosNNState ℚ where
  log := id
  probability := fun _ _ _ => 1
  compute_normalization := fun _ _ => 1
  compute_batch_gradients := fun _ _ _ _ => []

/-- A concrete positive-wavefunction library surface over `ℚ` whose
`probability` reads the current first parameter, so that library calls
observe parameter updates. -/
def posNNFrame : PosNNState ℚ where
  log := id
  probability := fun p _ _ => p.getD 0 0
  compute_normalization := fun _ _ => 1
  compute_batch_gradients := fun _ _ _ _ => []

/-- A concrete complex-wavefunction library surface over `ℚ` with one
visible unit, used to instantiate hypothesis-bearing theorems. -/
def cplxNNEx : CplxNNState ℚ where
  num_visible := 1
  log := id
  psi := fun _ v => ⟨v.getD 0 0, 0⟩
  probability := fun _ _ _ => 1
  compute_normalization := fun _ _ => 1
  generate_hilbert_space := fun _ _ _ => 0
  compute_batch_gradients := fun _ _ _ _ _ => []

theorem foldl_step_sum (u : K → ℕ → K) (h : ℕ → K)
    (hu : ∀ a i, u a i = a + h i) :
    ∀ (n : ℕ) (a : K),
      (List.range n).foldl u a = a + ∑ i in Finset.range n, h i := by
  intro n
  induction n with
  | zero => intro a; simp
  | succ n ih =>
    intro a
    rw [List.range_succ, List.foldl_append, ih a]
    simp only [List.foldl_cons, List.foldl_nil, Finset.sum_range_succ]
    rw [hu]
    ring

theorem foldl_push {α β : Type} (f : α → β) :
    ∀ (l : List α) (acc : List β),
      l.foldl (fun a i => a ++ [f i]) acc = acc ++ l.map f := by
  intro l
  induction l with
  | nil => intro acc; simp
  | cons x l ih =>
    intro acc
    rw [List.foldl_cons, ih]
    simp

theorem foldl_fd (step : List K × List K → ℕ → List K × List K)
    (g : List K → ℕ → K)
    (hs : ∀ (a p : List K) (i : ℕ), step (a, p) i = (a ++ [g p i], p)) :
    ∀ (l : List ℕ) (a p : List K),
      l.foldl step (a, p) = (a ++ l.map (g p), p) := by
  intro l
  induction l with
  | nil => intro a p; simp
  | cons x l ih =>
    intro a p
    rw [List.foldl_cons, hs, ih]
    simp

theorem getD_set_self (l : List K) (i : ℕ) (v : K) (h : i < l.length) :
    (l.set i v).getD i 0 = v := by
  rw [List.getD_eq_getElem _ _ (by simpa using h), List.getElem_set_self]

theorem set_getD_self (l : List K) (i : ℕ) : l.set i (l.getD i 0) = l := by
  rcases lt_or_le i l.length with h | h
  · apply List.ext_getElem (by simp)
    intro n h1 h2
    rw [List.getElem_set]
    split
    · next heq => subst heq; exact (List.getD_eq_getElem _ _ h2).symm ▸ rfl
    · rfl
  · exact List.set_eq_of_length_le h

theorem dip_bump (p : List K) (i : ℕ) (e : K) :
    dipAt (bumpAt p i e) i (2 * e) = dipAt p i e := by
  rcases lt_or_le i p.length with h | h
  · unfold dipAt bumpAt
    rw [getD_set_self _ _ _ h, List.set_set]
    congr 1
    ring
  · unfold dipAt bumpAt
    simp [List.set_eq_of_length_le h]

theorem bump_dip (p : List K) (i : ℕ) (e : K) :
    bumpAt (dipAt p i e) i e = p := by
  rcases lt_or_le i p.length with h | h
  · unfold bumpAt dipAt
    rw [getD_set_self _ _ _ h, List.set_set]
    have hv : p.getD i 0 - e + e = p.getD i 0 := by ring
    rw [hv, set_getD_self]
  · unfold bumpAt dipAt
    simp [List.set_eq_of_length_le h]

theorem map_getD_range_eq (l : List K) (N : ℕ) (h : l.length = N) :
    (List.range N).map (fun j => l.getD j 0) = l := by
  apply List.ext_getElem (by simp [h])
  intro n h1 h2
  simp only [List.getElem_map, List.getElem_range]
  exact List.getD_eq_getElem _ _ h2

theorem Cplx.scalar_mult_one (z : Cplx K) :
    Cplx.scalar_mult ⟨1, 0⟩ z = z := by
  unfold Cplx.scalar_mult
  ext <;> simp

theorem Cplx.zero_add_left (z : Cplx K) : (⟨0, 0⟩ : Cplx K) + z = z := by
  rw [Cplx.add_def]
  ext <;> simp

theorem flagStep_eq (N : ℕ) (db : List (List Char)) (i : ℕ) (f : ℕ) :
    ComplexGradsUtils.flagStep N db i f =
      if AllZ N (db.getD i []) then f else 1 := by
  induction N with
  | zero =>
    have hz : AllZ 0 (db.getD i []) := by intro j hj; omega
    unfold ComplexGradsUtils.flagStep
    rw [List.range_zero, List.foldl_nil, if_pos hz]
  | succ n ih =>
    unfold ComplexGradsUtils.flagStep at ih ⊢
    rw [List.range_succ, List.foldl_append, ih]
    simp only [List.foldl_cons, List.foldl_nil]
    by_cases hn : (db.getD i []).getD n 'Z' = 'Z'
    · rw [if_neg (not_not_intro hn)]
      by_cases hA : AllZ n (db.getD i [])
      · have hA1 : AllZ (n + 1) (db.getD i []) := by
          intro j hj
          rcases Nat.lt_succ_iff_lt_or_eq.mp hj with h | h
          · exact hA j h
          · rw [h]; exact hn
        rw [if_pos hA, if_pos hA1]
      · have hA1 : ¬ AllZ (n + 1) (db.getD i []) :=
          fun h => hA (fun j hj => h j (by omega))
        rw [if_neg hA, if_neg hA1]
    · have hA1 : ¬ AllZ (n + 1) (db.getD i []) :=
        fun h => hn (h n (by omega))
      rw [if_pos hn, if_neg hA1]

theorem NLL_fold [FloorRing K] (nn : CplxNNState K) (params : List K)
    (ds : List (List K)) (db : List (List Char)) (Z : K)
    (ud : Char → ℕ → ℕ → Cplx K) (vis : List (List K)) (n : ℕ) (a : K) :
    (List.range n).foldl
      (ComplexGradsUtils.NLLbody nn params ds db Z ud vis) (a, 0) =
    (a + ∑ i in Finset.range n,
      -(if ∀ k ≤ i, AllZ nn.num_visible (db.getD k []) then
          nn.log (nn.probability params (ds.getD i []) Z)
        else
          nn.log (Cplx.norm_sqr
            ((ComplexGradsUtils.rotate_psi nn params (db.getD i []) ud vis).getD
              (bitsToIndex (ComplexGradsUtils.sampleBits nn ds i)) ⟨0, 0⟩))
            - nn.log Z) / (ds.length : K),
     if ∀ k < n, AllZ nn.num_visible (db.getD k []) then 0 else 1) := by
  induction n with
  | zero =>
    have hz : ∀ k < 0, AllZ nn.num_visible (db.getD k []) := by intro k hk; omega
    rw [List.range_zero, List.foldl_nil, Finset.sum_range_zero, add_zero,
      if_pos hz]
  | succ n ih =>
    rw [List.range_succ, List.foldl_append, ih]
    simp only [List.foldl_cons, List.foldl_nil]
    unfold ComplexGradsUtils.NLLbody
    dsimp only
    rw [flagStep_eq, Finset.sum_range_succ]
    by_cases hA : ∀ k < n, AllZ nn.num_visible (db.getD k [])
    · rw [if_pos hA]
      by_cases hn : AllZ nn.num_visible (db.getD n [])
      · have hA1 : ∀ k < n + 1, AllZ nn.num_visible (db.getD k []) := by
          intro k hk
          rcases Nat.lt_succ_iff_lt_or_eq.mp hk with h | h
          · exact hA k h
          · rw [h]; exact hn
        have hle : ∀ k ≤ n, AllZ nn.num_visible (db.getD k []) := by
          intro k hk
          exact hA1 k (by omega)
        rw [if_pos hn, if_pos rfl, if_pos hle, if_pos hA1, Prod.mk.injEq]
        exact ⟨by ring, rfl⟩
      · have hA1 : ¬ ∀ k < n + 1, AllZ nn.num_visible (db.getD k []) :=
          fun h => hn (h n (by omega))
        have hle : ¬ ∀ k ≤ n, AllZ nn.num_visible (db.getD k []) :=
          fun h => hn (h n le_rfl)
        rw [if_neg hn, if_neg one_ne_zero, if_neg hle, if_neg hA1,
          Prod.mk.injEq]
        exact ⟨by ring, rfl⟩
    · have hA1 : ¬ ∀ k < n + 1, AllZ nn.num_visible (db.getD k []) :=
        fun h => hA (fun k hk => h k (by omega))
      have hle : ¬ ∀ k ≤ n, AllZ nn.num_visible (db.getD k []) :=
        fun h => hA (fun k hk => h k (le_of_lt hk))
      rw [if_neg hA, ite_self, if_neg one_ne_zero, if_neg hle, if_neg hA1,
        Prod.mk.injEq]
      exact ⟨by ring, rfl⟩

theorem numeric_gradKL_spec (nn : PosNNState K) (t : ℕ → K × K)
    (vis : List (List K)) (eps : K) (params : List K) :
    PosGradsUtils.numeric_gradKL nn t vis eps params =
    ((List.range params.length).map (fun i =>
      (PosGradsUtils.compute_numerical_kl nn (bumpAt params i eps) t vis
          (nn.compute_normalization (bumpAt params i eps) vis)
       - PosGradsUtils.compute_numerical_kl nn (dipAt params i eps) t vis
          (nn.compute_normalization (dipAt params i eps) vis)) / (2 * eps)),
     params) := by
  unfold PosGradsUtils.numeric_gradKL
  refine Eq.trans
    (foldl_fd _ (fun p i =>
      (PosGradsUtils.compute_numerical_kl nn (bumpAt p i eps) t vis
          (nn.compute_normalization (bumpAt p i eps) vis)
       - PosGradsUtils.compute_numerical_kl nn (dipAt p i eps) t vis
          (nn.compute_normalization (dipAt p i eps) vis)) / (2 * eps))
      ?_ (List.range params.length) [] params)
    (by simp)
  intro a p i
  dsimp only
  rw [dip_bump, bump_dip]

theorem numeric_gradNLL_spec (nn : PosNNState K) (data : List (List K))
    (vis : List (List K)) (eps : K) (params : List K) :
    PosGradsUtils.numeric_gradNLL nn data vis eps params =
    ((List.range params.length).map (fun i =>
      (PosGradsUtils.compute_numerical_NLL nn (bumpAt params i eps) data
          (nn.compute_normalization (bumpAt params i eps) vis)
       - PosGradsUtils.compute_numerical_NLL nn (dipAt params i eps) data
          (nn.compute_normalization (dipAt params i eps) vis)) / (2 * eps)),
     params) := by
  unfold PosGradsUtils.numeric_gradNLL
  refine Eq.trans
    (foldl_fd _ (fun p i =>
      (PosGradsUtils.compute_numerical_NLL nn (bumpAt p i eps) data
          (nn.compute_normalization (bumpAt p i eps) vis)
       - PosGradsUtils.compute_numerical_NLL nn (dipAt p i eps) data
          (nn.compute_normalization (dipAt p i eps) vis)) / (2 * eps))
      ?_ (List.range params.length) [] params)
    (by simp)
  intro a p i
  dsimp only
  rw [dip_bump, bump_dip]

theorem cplx_numeric_gradNLL_spec [FloorRing K] (nn : CplxNNState K)
    (ds : List (List K)) (db : List (List Char))
    (ud : Char → ℕ → ℕ → Cplx K) (vis : List (List K)) (eps : K)
    (params : List K) :
    ComplexGradsUtils.numeric_gradNLL nn ds db ud vis eps params =
    ((List.range params.length).map (fun i =>
      (ComplexGradsUtils.compute_numerical_NLL nn (bumpAt params i eps) ds db
          (nn.compute_normalization (bumpAt params i eps) vis) ud vis
       - ComplexGradsUtils.compute_numerical_NLL nn (dipAt params i eps) ds db
          (nn.compute_normalization (dipAt params i eps) vis) ud vis)
        / (2 * eps)),
     params) := by
  unfold ComplexGradsUtils.numeric_gradNLL
  refine Eq.trans
    (foldl_fd _ (fun p i =>
      (ComplexGradsUtils.compute_numerical_NLL nn (bumpAt p i eps) ds db
          (nn.compute_normalization (bumpAt p i eps) vis) ud vis
       - ComplexGradsUtils.compute_numerical_NLL nn (dipAt p i eps) ds db
          (nn.compute_normalization (dipAt p i eps) vis) ud vis)
        / (2 * eps))
      ?_ (List.range params.length) [] params)
    (by simp)
  intro a p i
  dsimp only
  rw [dip_bump, bump_dip]

theorem cplx_numeric_gradKL_spec [FloorRing K] (nn : CplxNNState K)
    (psi_dict : List Char → ℕ → Cplx K) (vis : List (List K))
    (ud : Char → ℕ → ℕ → Cplx K) (bases : List (List Char)) (eps : K)
    (params : List K) :
    ComplexGradsUtils.numeric_gradKL nn psi_dict vis ud bases eps params =
    ((List.range params.length).map (fun i =>
      (ComplexGradsUtils.compute_numerical_kl nn (bumpAt params i eps)
          psi_dict vis (nn.compute_normalization (bumpAt params i eps) vis)
          ud bases
       - ComplexGradsUtils.compute_numerical_kl nn (dipAt params i eps)
          psi_dict vis (nn.compute_normalization (dipAt params i eps) vis)
          ud bases) / (2 * eps)),
     params) := by
  unfold ComplexGradsUtils.numeric_gradKL
  refine Eq.trans
    (foldl_fd _ (fun p i =>
      (ComplexGradsUtils.compute_numerical_kl nn (bumpAt p i eps)
          psi_dict vis (nn.compute_normalization (bumpAt p i eps) vis)
          ud bases
       - ComplexGradsUtils.compute_numerical_kl nn (dipAt p i eps)
          psi_dict vis (nn.compute_normalization (dipAt p i eps) vis)
          ud bases) / (2 * eps))
      ?_ (List.range params.length) [] params)
    (by simp)
  intro a p i
  dsimp only
  rw [dip_bump, bump_dip]

theorem density_numeric_gradKL_spec (nn : DensityNNState K) (target : List K)
    (v_space a_space : List (List K)) (bases : List (List Char)) (eps : K)
    (params : List K) :
    DensityGradsUtils.numeric_gradKL nn target v_space a_space bases eps
      params =
    ((List.range params.length).map (fun i =>
      (DensityGradsUtils.compute_numerical_KL nn (bumpAt params i eps) target
          bases v_space a_space
       - DensityGradsUtils.compute_numerical_KL nn (dipAt params i eps) target
          bases v_space a_space) / (2 * eps)),
     params) := by
  unfold DensityGradsUtils.numeric_gradKL
  refine Eq.trans
    (foldl_fd _ (fun p i =>
      (DensityGradsUtils.compute_numerical_KL nn (bumpAt p i eps) target
          bases v_space a_space
       - DensityGradsUtils.compute_numerical_KL nn (dipAt p i eps) target
          bases v_space a_space) / (2 * eps))
      ?_ (List.range params.length) [] params)
    (by simp)
  intro a p i
  dsimp only
  rw [dip_bump, bump_dip]

theorem stripSpaces_foldl (s : List Char) :
    ∀ acc : List Char,
      s.foldl (fun tmp c => if c ≠ ' ' then tmp ++ [c] else tmp) acc =
      acc ++ s.filter (fun c => c ≠ ' ') := by
  induction s with
  | nil => intro acc; simp
  | cons c s ih =>
    intro acc
    rw [List.foldl_cons, List.filter_cons]
    by_cases hc : c = ' '
    · rw [if_neg (not_not_intro hc), ih]
      have hpc : ¬ (decide (c ≠ ' ') = true) := by simp [hc]
      rw [if_neg hpc]
    · rw [if_pos hc, ih]
      have hpc : decide (c ≠ ' ') = true := by simp [hc]
      rw [if_pos hpc]
      simp

theorem transform_bases_eq (bd : List (List Char)) :
    ComplexGradsUtils.transform_bases bd =
      (List.range bd.length).map
        (fun i => (bd.getD i []).filter (fun c => c ≠ ' ')) := by
  unfold ComplexGradsUtils.transform_bases
  rw [foldl_push (fun i => (bd.getD i []).foldl
    (fun tmp c => if c ≠ ' ' then tmp ++ [c] else tmp) [])]
  rw [List.nil_append]
  apply List.map_congr_left
  intro a _
  rw [stripSpaces_foldl, List.nil_append]

theorem nontrivialSites_allZ (N : ℕ) (basis : List Char) (hZ : AllZ N basis) :
    ComplexGradsUtils.nontrivialSites N basis = [] := by
  unfold ComplexGradsUtils.nontrivialSites
  rw [List.filter_eq_nil_iff]
  intro a ha
  rw [List.mem_range] at ha
  have h := hZ a ha
  rw [List.getD_eq_getElem?_getD] at h
  simp [h]

theorem uFactor_allZ [FloorRing K] (nn : CplxNNState K) (basis : List Char)
    (ud : Char → ℕ → ℕ → Cplx K) (vis : List (List K)) (x xp : ℕ)
    (hZ : AllZ nn.num_visible basis) :
    ComplexGradsUtils.uFactor nn basis ud vis x xp = ⟨1, 0⟩ := by
  unfold ComplexGradsUtils.uFactor
  rw [nontrivialSites_allZ _ _ hZ, List.foldl_nil]

theorem buildV_allZ (nn : CplxNNState K) (basis : List Char)
    (vis : List (List K)) (x xp : ℕ) (hZ : AllZ nn.num_visible basis)
    (hlen : (vis.getD x []).length = nn.num_visible) :
    ComplexGradsUtils.buildV nn basis vis x xp = vis.getD x [] := by
  unfold ComplexGradsUtils.buildV
  have h1 : (List.range nn.num_visible).map (fun j =>
      if basis.getD j 'Z' ≠ 'Z' then
        nn.generate_hilbert_space
          (ComplexGradsUtils.nontrivialSites nn.num_visible basis).length
          xp (ComplexGradsUtils.cntBefore basis j)
      else (vis.getD x []).getD j 0)
      = (List.range nn.num_visible).map (fun j => (vis.getD x []).getD j 0) := by
    apply List.map_congr_left
    intro a ha
    rw [List.mem_range] at ha
    rw [if_neg (not_not_intro (hZ a ha))]
  rw [h1, map_getD_range_eq _ _ hlen]

theorem ltp_fold_value [DecidableEq K] (bases : List (List Char))
    (psi_data : List (K × K)) (D : ℕ) (hnd : bases.Nodup) :
    ∀ n, n ≤ bases.length → ∀ b, b < n →
      ((List.range n).foldl
        (fun d b' =>
          Function.update d (bases.getD b' [])
            (some ((ComplexGradsUtils.blockSlice psi_data D b').map Prod.fst,
                   (ComplexGradsUtils.blockSlice psi_data D b').map Prod.snd)))
        (fun _ => none)) (bases.getD b [])
      = some ((ComplexGradsUtils.blockSlice psi_data D b).map Prod.fst,
              (ComplexGradsUtils.blockSlice psi_data D b).map Prod.snd) := by
  intro n
  induction n with
  | zero => intro _ b hb; omega
  | succ n ih =>
    intro hn b hb
    rw [List.range_succ, List.foldl_append]
    simp only [List.foldl_cons, List.foldl_nil]
    rcases Nat.lt_succ_iff_lt_or_eq.mp hb with h | h
    · have hbl : b < bases.length := by omega
      have hnl : n < bases.length := by omega
      have hkey : bases.getD b [] ≠ bases.getD n [] := by
        rw [List.getD_eq_getElem _ _ hbl, List.getD_eq_getElem _ _ hnl]
        intro hcontra
        have hbn := (hnd.getElem_inj_iff).mp hcontra
        omega
      rw [Function.update_apply, if_neg hkey]
      exact ih (by omega) b h
    · rw [h]
      exact Function.update_same _ _ _

theorem ltp_fold_keys [DecidableEq K] (bases : List (List Char))
    (psi_data : List (K × K)) (D : ℕ) :
    ∀ n (k : List Char),
      ((((List.range n).foldl
        (fun d b' =>
          Function.update d (bases.getD b' [])
            (some ((ComplexGradsUtils.blockSlice psi_data D b').map Prod.fst,
                   (ComplexGradsUtils.blockSlice psi_data D b').map Prod.snd)))
        (fun _ => none)) k).isSome ↔ ∃ b, b < n ∧ bases.getD b [] = k) := by
  intro n
  induction n with
  | zero =>
    intro k
    simp
  | succ n ih =>
    intro k
    rw [List.range_succ, List.foldl_append]
    simp only [List.foldl_cons, List.foldl_nil]
    rw [Function.update_apply]
    by_cases hk : k = bases.getD n []
    · rw [if_pos hk]
      exact ⟨fun _ => ⟨n, Nat.lt_succ_self n, hk.symm⟩, fun _ => rfl⟩
    · rw [if_neg hk, ih]
      constructor
      · rintro ⟨b, hb, hbk⟩
        exact ⟨b, by omega, hbk⟩
      · rintro ⟨b, hb, hbk⟩
        rcases Nat.lt_succ_iff_lt_or_eq.mp hb with h | h
        · exact ⟨b, h, hbk⟩
        · exact absurd (by rw [← hbk, h]) hk

theorem blockSlice_length (psi_data : List (K × K)) (nb b : ℕ) (hb : b < nb) :
    (ComplexGradsUtils.blockSlice psi_data (psi_data.length / nb) b).length =
      psi_data.length / nb := by
  unfold ComplexGradsUtils.blockSlice
  rw [List.length_take, List.length_drop]
  apply min_eq_left
  have h1 : (b + 1) * (psi_data.length / nb) ≤ nb * (psi_data.length / nb) :=
    Nat.mul_le_mul_right _ hb
  have h2 : nb * (psi_data.length / nb) ≤ psi_data.length := by
    rw [mul_comm]
    exact Nat.div_mul_le_self _ _
  have h3 : (b + 1) * (psi_data.length / nb)
      = b * (psi_data.length / nb) + psi_data.length / nb := by
    rw [Nat.succ_mul]
  omega

theorem getD_map_range {α : Type} (f : ℕ → α) (d : α) (n i : ℕ) (hi : i < n) :
    ((List.range n).map f).getD i d = f i := by
  have hlt : i < ((List.range n).map f).length := by simpa using hi
  rw [List.getD_eq_getElem _ _ hlt, List.getElem_map, List.getElem_range]

/-- C1: for every parameter tensor, every nonzero `eps`, and every fixed
target state and visible-state enumeration, `PosGradsUtils.numeric_gradKL`
and `PosGradsUtils.numeric_gradNLL` return a tensor of one entry per
parameter whose `i`-th entry is the central finite difference
`(f_plus - f_minus) / (2*eps)`, where `f_plus` is the objective evaluated
with `param[i]` increased by `eps`, `f_minus` the same objective with
`param[i]` decreased by `eps`, and the normalization `Z` is recomputed via
`compute_normalization` at each of the two perturbed parameter settings
before the objective is evaluated. -/
theorem claim_C1 (nn : PosNNState K) (target_psi : ℕ → K × K)
    (data vis : List (List K)) (eps : K) (params : List K) (i : ℕ)
    (hi : i < params.length) (heps : eps ≠ 0) :
    (PosGradsUtils.numeric_gradKL nn target_psi vis eps params).1.length
        = params.length ∧
    (PosGradsUtils.numeric_gradKL nn target_psi vis eps params).1.getD i 0 =
      (PosGradsUtils.compute_numerical_kl nn (bumpAt params i eps) target_psi
          vis (nn.compute_normalization (bumpAt params i eps) vis)
       - PosGradsUtils.compute_numerical_kl nn (dipAt params i eps) target_psi
          vis (nn.compute_normalization (dipAt params i eps) vis))
        / (2 * eps) ∧
    (PosGradsUtils.numeric_gradNLL nn data vis eps params).1.length
        = params.length ∧
    (PosGradsUtils.numeric_gradNLL nn data vis eps params).1.getD i 0 =
      (PosGradsUtils.compute_numerical_NLL nn (bumpAt params i eps) data
          (nn.compute_normalization (bumpAt params i eps) vis)
       - PosGradsUtils.compute_numerical_NLL nn (dipAt params i eps) data
          (nn.compute_normalization (dipAt params i eps) vis))
        / (2 * eps) := by
  rw [numeric_gradKL_spec, numeric_gradNLL_spec]
  exact ⟨by simp, getD_map_range _ _ _ _ hi, by simp,
    getD_map_range _ _ _ _ hi⟩

/-- Witness for C1 at a concrete one-parameter model over `ℚ`. -/
theorem claim_C1_witness :
    0 < ([(0 : ℚ)]).length ∧ (1 : ℚ) ≠ 0 ∧
    ((PosGradsUtils.numeric_gradKL posNNEx (fun _ => (1, 0)) [[0]] 1
        [(0 : ℚ)]).1.length = ([(0 : ℚ)]).length ∧
     (PosGradsUtils.numeric_gradKL posNNEx (fun _ => (1, 0)) [[0]] 1
        [(0 : ℚ)]).1.getD 0 0 =
      (PosGradsUtils.compute_numerical_kl posNNEx (bumpAt [(0 : ℚ)] 0 1)
          (fun _ => (1, 0)) [[0]]
          (posNNEx.compute_normalization (bumpAt [(0 : ℚ)] 0 1) [[0]])
       - PosGradsUtils.compute_numerical_kl posNNEx (dipAt [(0 : ℚ)] 0 1)
          (fun _ => (1, 0)) [[0]]
          (posNNEx.compute_normalization (dipAt [(0 : ℚ)] 0 1) [[0]]))
        / (2 * 1) ∧
     (PosGradsUtils.numeric_gradNLL posNNEx [[0]] [[0]] 1
        [(0 : ℚ)]).1.length = ([(0 : ℚ)]).length ∧
     (PosGradsUtils.numeric_gradNLL posNNEx [[0]] [[0]] 1
        [(0 : ℚ)]).1.getD 0 0 =
      (PosGradsUtils.compute_numerical_NLL posNNEx (bumpAt [(0 : ℚ)] 0 1)
          [[0]] (posNNEx.compute_normalization (bumpAt [(0 : ℚ)] 0 1) [[0]])
       - PosGradsUtils.compute_numerical_NLL posNNEx (dipAt [(0 : ℚ)] 0 1)
          [[0]] (posNNEx.compute_normalization (dipAt [(0 : ℚ)] 0 1) [[0]]))
        / (2 * 1)) :=
  ⟨by decide, by decide,
   claim_C1 posNNEx (fun _ => (1, 0)) [[0]] [[0]] 1 [(0 : ℚ)] 0
     (by decide) (by decide)⟩

/-- C2: `PosGradsUtils.compute_numerical_kl` returns the sum over `i` of
`target_psi[i,0]^2 * (log(target_psi[i,0]^2) - log(probability(vis[i], Z)))`
and `PosGradsUtils.compute_numerical_NLL` returns `-(1/len(data))` times
the sum over `i` of `log(probability(data[i], Z))`. -/
theorem claim_C2 (nn : PosNNState K) (params : List K)
    (target_psi : ℕ → K × K) (vis data : List (List K)) (Z : K) :
    PosGradsUtils.compute_numerical_kl nn params target_psi vis Z =
      ∑ i in Finset.range vis.length,
        (target_psi i).1 ^ 2 *
          (nn.log ((target_psi i).1 ^ 2)
            - nn.log (nn.probability params (vis.getD i []) Z)) ∧
    PosGradsUtils.compute_numerical_NLL nn params data Z =
      -(1 / (data.length : K)) *
        ∑ i in Finset.range data.length,
          nn.log (nn.probability params (data.getD i []) Z) := by
  constructor
  · unfold PosGradsUtils.compute_numerical_kl
    refine Eq.trans (foldl_step_sum _
      (fun i => (target_psi i).1 ^ 2 * nn.log ((target_psi i).1 ^ 2)
        - (target_psi i).1 ^ 2 *
            nn.log (nn.probability params (vis.getD i []) Z))
      (fun a i => by ring) vis.length 0) ?_
    rw [zero_add]
    apply Finset.sum_congr rfl
    intro i _
    ring
  · unfold PosGradsUtils.compute_numerical_NLL
    refine Eq.trans (foldl_step_sum _
      (fun i => -(nn.log (nn.probability params (data.getD i []) Z)
        / (data.length : K)))
      (fun a i => by ring) data.length 0) ?_
    rw [zero_add, Finset.sum_neg_distrib, ← Finset.sum_div]
    ring

/-- C3: both `algorithmic_gradNLL` methods return exactly the value of the
external library call `compute_batch_gradients`, with no local computation
added. -/
theorem claim_C3 :
    (∀ (nn : PosNNState K) (params : List K) (data : List (List K)) (k : ℕ),
       PosGradsUtils.algorithmic_gradNLL nn params data k =
         nn.compute_batch_gradients params k data data) ∧
    (∀ (nn : CplxNNState K) (params : List K) (ds : List (List K))
       (db : List (List Char)) (k : ℕ),
       ComplexGradsUtils.algorithmic_gradNLL nn params ds db k =
         nn.compute_batch_gradients params k ds ds db) :=
  ⟨fun _ _ _ _ => rfl, fun _ _ _ _ _ => rfl⟩

/-- C5: for a basis string consisting entirely of `"Z"`,
`ComplexGradsUtils.rotate_psi` acts as the identity rotation: column `x` of
the returned tensor is `nn_state.psi(vis[x])` for every `x` in
`range(2^num_visible)`, the accumulated unitary factor being the complex
scalar `1`. -/
theorem claim_C5 [FloorRing K] (nn : CplxNNState K) (params : List K)
    (basis : List Char) (ud : Char → ℕ → ℕ → Cplx K) (vis : List (List K))
    (x : ℕ) (hZ : AllZ nn.num_visible basis) (hx : x < 2 ^ nn.num_visible)
    (hlen : (vis.getD x []).length = nn.num_visible) :
    (ComplexGradsUtils.rotate_psi nn params basis ud vis).getD x ⟨0, 0⟩ =
      nn.psi params (vis.getD x []) := by
  unfold ComplexGradsUtils.rotate_psi
  rw [getD_map_range _ _ _ _ hx, nontrivialSites_allZ _ _ hZ]
  have hr1 : List.range (2 ^ ([] : List ℕ).length) = [0] := rfl
  rw [hr1, List.foldl_cons, List.foldl_nil]
  rw [uFactor_allZ _ _ _ _ _ _ hZ, buildV_allZ _ _ _ _ _ hZ hlen,
    Cplx.scalar_mult_one, Cplx.zero_add_left]

/-- Witness for C5 at a concrete one-site model over `ℚ`. -/
theorem claim_C5_witness :
    AllZ cplxNNEx.num_visible ['Z'] ∧ 0 < 2 ^ cplxNNEx.num_visible ∧
    (([[(0 : ℚ)]] : List (List ℚ)).getD 0 []).length = cplxNNEx.num_visible ∧
    (ComplexGradsUtils.rotate_psi cplxNNEx [] ['Z'] (fun _ _ _ => ⟨1, 0⟩)
        [[(0 : ℚ)]]).getD 0 ⟨0, 0⟩ =
      cplxNNEx.psi [] (([[(0 : ℚ)]] : List (List ℚ)).getD 0 []) :=
  ⟨by decide, by decide, by decide,
   claim_C5 cplxNNEx [] ['Z'] (fun _ _ _ => ⟨1, 0⟩) [[(0 : ℚ)]] 0
     (by decide) (by decide) (by decide)⟩

/-- Counterexample to C6 as stated: with the duplicated basis list
`["X", "X"]` and two data rows, the dictionary's value at key `bases[0]`
holds the block of the later duplicate index, not the `0`-th contiguous
block `([0], [0])`. -/
theorem claim_C6_counterexample :
    ComplexGradsUtils.load_target_psi [['X'], ['X']]
        [((0 : ℚ), (0 : ℚ)), ((1 : ℚ), (0 : ℚ))]
        (([['X'], ['X']] : List (List Char)).getD 0 [])
      ≠ some (([0], [0]) : List ℚ × List ℚ) := by
  decide

/-- C6 (amended): for every non-empty basis list with pairwise-distinct
entries and every two-column data array, `ComplexGradsUtils.load_target_psi`
returns a dictionary whose keys are exactly the elements of `bases` and
whose value at `bases[b]` is the pair of rows of length
`D = len(psi_data) / len(bases)` holding the first and second columns of
the `b`-th contiguous block of `D` rows of `psi_data`. -/
theorem claim_C6 [DecidableEq K] (bases : List (List Char))
    (psi_data : List (K × K)) (hne : bases ≠ []) (hnd : bases.Nodup) :
    (∀ k, (ComplexGradsUtils.load_target_psi bases psi_data k).isSome ↔
       k ∈ bases) ∧
    ∀ b, b < bases.length →
      ComplexGradsUtils.load_target_psi bases psi_data (bases.getD b []) =
        some ((ComplexGradsUtils.blockSlice psi_data
                  (psi_data.length / bases.length) b).map Prod.fst,
              (ComplexGradsUtils.blockSlice psi_data
                  (psi_data.length / bases.length) b).map Prod.snd) ∧
      ((ComplexGradsUtils.blockSlice psi_data
          (psi_data.length / bases.length) b).map Prod.fst).length =
        psi_data.length / bases.length ∧
      ((ComplexGradsUtils.blockSlice psi_data
          (psi_data.length / bases.length) b).map Prod.snd).length =
        psi_data.length / bases.length := by
  unfold ComplexGradsUtils.load_target_psi
  constructor
  · intro k
    rw [ltp_fold_keys]
    constructor
    · rintro ⟨b, hb, hbk⟩
      rw [← hbk, List.getD_eq_getElem _ _ hb]
      exact List.getElem_mem _
    · intro hk
      rcases List.mem_iff_getElem.mp hk with ⟨b, hb, hbe⟩
      refine ⟨b, hb, ?_⟩
      rw [List.getD_eq_getElem _ _ hb]
      exact hbe
  · intro b hb
    refine ⟨ltp_fold_value bases psi_data _ hnd bases.length le_rfl b hb,
      ?_, ?_⟩
    · rw [List.length_map]
      exact blockSlice_length psi_data bases.length b hb
    · rw [List.length_map]
      exact blockSlice_length psi_data bases.length b hb

/-- Witness for C6 (amended) at a concrete singleton basis list over `ℚ`. -/
theorem claim_C6_witness :
    ([['X']] : List (List Char)) ≠ [] ∧
    ([['X']] : List (List Char)).Nodup ∧
    ((∀ k, (ComplexGradsUtils.load_target_psi [['X']]
        [((1 : ℚ), (2 : ℚ))] k).isSome ↔ k ∈ ([['X']] : List (List Char))) ∧
     ∀ b, b < ([['X']] : List (List Char)).length →
      ComplexGradsUtils.load_target_psi [['X']] [((1 : ℚ), (2 : ℚ))]
          (([['X']] : List (List Char)).getD b []) =
        some ((ComplexGradsUtils.blockSlice [((1 : ℚ), (2 : ℚ))]
                  (([((1 : ℚ), (2 : ℚ))] : List (ℚ × ℚ)).length /
                    ([['X']] : List (List Char)).length) b).map Prod.fst,
              (ComplexGradsUtils.blockSlice [((1 : ℚ), (2 : ℚ))]
                  (([((1 : ℚ), (2 : ℚ))] : List (ℚ × ℚ)).length /
                    ([['X']] : List (List Char)).length) b).map Prod.snd) ∧
      ((ComplexGradsUtils.blockSlice [((1 : ℚ), (2 : ℚ))]
          (([((1 : ℚ), (2 : ℚ))] : List (ℚ × ℚ)).length /
            ([['X']] : List (List Char)).length) b).map Prod.fst).length =
        ([((1 : ℚ), (2 : ℚ))] : List (ℚ × ℚ)).length /
          ([['X']] : List (List Char)).length ∧
      ((ComplexGradsUtils.blockSlice [((1 : ℚ), (2 : ℚ))]
          (([((1 : ℚ), (2 : ℚ))] : List (ℚ × ℚ)).length /
            ([['X']] : List (List Char)).length) b).map Prod.snd).length =
        ([((1 : ℚ), (2 : ℚ))] : List (ℚ × ℚ)).length /
          ([['X']] : List (List Char)).length) :=
  ⟨by decide, by decide,
   claim_C6 [['X']] [((1 : ℚ), (2 : ℚ))] (by decide) (by decide)⟩

/-- Counterexample to C7 as stated: with a library surface whose
`probability` reads the current first parameter, `numeric_gradKL` returns a
value different from the one it would return if no library call ever
observed a modified parameter tensor, so the in-place parameter updates are
observable by the external library during execution. -/
theorem claim_C7_counterexample :
    (PosGradsUtils.numeric_gradKL posNNFrame (fun _ => ((1 : ℚ), (0 : ℚ)))
        [[0]] 1 [(0 : ℚ)]).1
      ≠ PosGradsUtils.numeric_gradKL_paramsFrozen posNNFrame
          (fun _ => ((1 : ℚ), (0 : ℚ))) [[0]] 1 [(0 : ℚ)] := by
  have hr1 : List.range 1 = [0] := rfl
  have hL : (PosGradsUtils.numeric_gradKL posNNFrame
      (fun _ => ((1 : ℚ), (0 : ℚ))) [[0]] 1 [(0 : ℚ)]).1 = [(-1 : ℚ)] := by
    rw [numeric_gradKL_spec]
    simp only [List.length_cons, List.length_nil, hr1, List.map_cons,
      List.map_nil, PosGradsUtils.compute_numerical_kl, posNNFrame, bumpAt,
      dipAt, List.foldl_cons, List.foldl_nil, List.getD, List.set]
    norm_num
  have hR : PosGradsUtils.numeric_gradKL_paramsFrozen posNNFrame
      (fun _ => ((1 : ℚ), (0 : ℚ))) [[0]] 1 [(0 : ℚ)] = [(0 : ℚ)] := by
    unfold PosGradsUtils.numeric_gradKL_paramsFrozen
    simp only [List.length_cons, List.length_nil, hr1, List.map_cons,
      List.map_nil]
    norm_num
  rw [hL, hR]
  intro hcontra
  have hhead : (-1 : ℚ) = 0 := by
    have := congrArg (fun l => l.getD 0 0) hcontra
    simpa using this
  norm_num at hhead

/-- C7 (amended): the gradient-check routines do temporarily modify the
model's parameter tensor in place — after the loop's first update
(`param[i] += eps`) the tensor differs from the caller's, as it does after
the second (`param[i] -= 2*eps`) — but the three updates of each iteration
sum to zero, so the tensor is restored before the iteration ends; beyond
the parameter tensor, the routines touch only local state. -/
theorem claim_C7 (params : List K) (i : ℕ) (eps : K)
    (hi : i < params.length) (heps : eps ≠ 0) :
    bumpAt params i eps ≠ params ∧
    dipAt (bumpAt params i eps) i (2 * eps) ≠ params ∧
    bumpAt (dipAt (bumpAt params i eps) i (2 * eps)) i eps = params := by
  refine ⟨?_, ?_, ?_⟩
  · intro hcontra
    have h1 : (bumpAt params i eps).getD i 0 = params.getD i 0 := by
      rw [hcontra]
    unfold bumpAt at h1
    rw [getD_set_self _ _ _ hi] at h1
    exact heps (by linarith)
  · intro hcontra
    rw [dip_bump] at hcontra
    have h1 : (dipAt params i eps).getD i 0 = params.getD i 0 := by
      rw [hcontra]
    unfold dipAt at h1
    rw [getD_set_self _ _ _ hi] at h1
    exact heps (by linarith)
  · rw [dip_bump, bump_dip]

/-- Witness for C7 (amended) at a concrete one-parameter tensor over `ℚ`. -/
theorem claim_C7_witness :
    0 < ([(0 : ℚ)]).length ∧ (1 : ℚ) ≠ 0 ∧
    (bumpAt [(0 : ℚ)] 0 1 ≠ [(0 : ℚ)] ∧
     dipAt (bumpAt [(0 : ℚ)] 0 1) 0 (2 * 1) ≠ [(0 : ℚ)] ∧
     bumpAt (dipAt (bumpAt [(0 : ℚ)] 0 1) 0 (2 * 1)) 0 1 = [(0 : ℚ)]) :=
  ⟨by decide, by decide, claim_C7 [(0 : ℚ)] 0 1 (by decide) (by decide)⟩

/-- C8: every numeric-gradient routine leaves the parameter tensor, as
threaded through its loop, equal to its value before the call: each
iteration's in-place updates (`+eps`, `-2*eps`, `+eps`) sum to zero. -/
theorem claim_C8 [FloorRing K] (nnP : PosNNState K) (nnC : CplxNNState K)
    (nnD : DensityNNState K) (target_psi : ℕ → K × K)
    (data vis ds v_space a_space : List (List K))
    (db bases : List (List Char)) (psi_dict : List Char → ℕ → Cplx K)
    (ud : Char → ℕ → ℕ → Cplx K) (target : List K) (eps : K)
    (params : List K) :
    (PosGradsUtils.numeric_gradKL nnP target_psi vis eps params).2
        = params ∧
    (PosGradsUtils.numeric_gradNLL nnP data vis eps params).2 = params ∧
    (ComplexGradsUtils.numeric_gradNLL nnC ds db ud vis eps params).2
        = params ∧
    (ComplexGradsUtils.numeric_gradKL nnC psi_dict vis ud bases eps
        params).2 = params ∧
    (DensityGradsUtils.numeric_gradKL nnD target v_space a_space bases eps
        params).2 = params := by
  rw [numeric_gradKL_spec, numeric_gradNLL_spec, cplx_numeric_gradNLL_spec,
    cplx_numeric_gradKL_spec, density_numeric_gradKL_spec]
  exact ⟨rfl, rfl, rfl, rfl, rfl⟩

/-- C9: in `ComplexGradsUtils.compute_numerical_NLL` the flag selecting
between the computational-basis branch and the rotated-basis branch is
sticky: sample `i` contributes through the unrotated probability branch if
and only if every sample of index at most `i` has an all-`"Z"` basis
string; afterwards every sample is evaluated through the rotated-psi
branch. -/
theorem claim_C9 [FloorRing K] (nn : CplxNNState K) (params : List K)
    (ds : List (List K)) (db : List (List Char)) (Z : K)
    (ud : Char → ℕ → ℕ → Cplx K) (vis : List (List K)) :
    ComplexGradsUtils.compute_numerical_NLL nn params ds db Z ud vis =
      ∑ i in Finset.range ds.length,
        -(if ∀ k ≤ i, AllZ nn.num_visible (db.getD k []) then
            nn.log (nn.probability params (ds.getD i []) Z)
          else
            nn.log (Cplx.norm_sqr
              ((ComplexGradsUtils.rotate_psi nn params (db.getD i []) ud
                  vis).getD
                (bitsToIndex (ComplexGradsUtils.sampleBits nn ds i)) ⟨0, 0⟩))
              - nn.log Z) / (ds.length : K) := by
  unfold ComplexGradsUtils.compute_numerical_NLL
  rw [NLL_fold]
  exact zero_add _

/-- C10: the two `transform_bases` methods compute the same function, and
each returns a list of the input's length whose `i`-th element is the
`i`-th input string with every space character removed and all other
characters kept in order. -/
theorem claim_C10 :
    (∀ bd : List (List Char),
       ComplexGradsUtils.transform_bases bd =
         DensityGradsUtils.transform_bases bd) ∧
    (∀ bd : List (List Char),
       (ComplexGradsUtils.transform_bases bd).length = bd.length) ∧
    (∀ (bd : List (List Char)) (i : ℕ),
       (ComplexGradsUtils.transform_bases bd).getD i [] =
         (bd.getD i []).filter (fun c => c ≠ ' ')) := by
  refine ⟨fun bd => rfl, fun bd => ?_, fun bd i => ?_⟩
  · rw [transform_bases_eq]
    simp
  · rw [transform_bases_eq]
    rcases lt_or_le i bd.length with h | h
    · exact getD_map_range _ _ _ _ h
    · have hL : ((List.range bd.length).map
          (fun i => (bd.getD i []).filter (fun c => c ≠ ' '))).getD i []
          = ([] : List Char) := by
        rw [List.getD_eq_getElem?_getD, List.getElem?_eq_none (by simpa using h)]
        rfl
      have hR : bd.getD i [] = ([] : List Char) := by
        rw [List.getD_eq_getElem?_getD, List.getElem?_eq_none h]
        rfl
      rw [hL, hR]
      rfl

end QC
